import Mathlib

/-!
Verification of the shared-memory command-queue processing engine
(`gpu/command_buffer/service`): ring-buffer command parser, processor /
scheduler, transfer-buffer registry and token forwarding.

The repository ships the unit tests (`gpu_processor_unittest.cc`) but not the
`GPUProcessor` / `CommandParser` implementation, so the engine is modelled
from the design specification, with the concrete conventions (header layout,
dispatch arguments, per-call command limit) pinned by the expectations of the
unit tests.  Machine pointers are modelled as word offsets into the ring
buffer; the shared counters and latched error state are explicit record
fields; every externally observable action of a call is recorded in an event
trace.
-/

namespace Gpu

/-- Parse error codes, as in the `parse_error` namespace used by the tests. -/
inductive ParseError where
  | noError
  | invalidSize
  | outOfBounds
  | unknownCommand
  | invalidArguments
deriving DecidableEq, Repr

/-- Classification of a parse error code into the three classes of the
error taxonomy: continue, latch-but-continue, halt. -/
inductive ErrorClass where
  | ok
  | recoverable
  | fatal
deriving DecidableEq, Repr

/-- Modelled from the spec (error taxonomy, §7) and pinned by the unit tests:
`kParseUnknownCommand` is recoverable and `kParseInvalidSize` is fatal;
`kParseInvalidArguments` is grouped with the recoverable class and
`kParseOutOfBounds` with the fatal class. -/
def classify : ParseError → ErrorClass
  | .noError => .ok
  | .unknownCommand => .recoverable
  | .invalidArguments => .recoverable
  | .invalidSize => .fatal
  | .outOfBounds => .fatal

/-- A command header, the view of a buffer word as an (opcode, size) pair.
Pinned by the unit tests: `size` counts the total number of words of the
command, the header word included (a header written with `size = 2` has one
trailing argument word). -/
structure CommandHeader where
  command : Nat
  size : Nat
deriving DecidableEq, Repr

/-- A shared-memory region: a pointer (modelled as an address value) and a
byte size. -/
structure Buffer where
  ptr : Nat
  size : Nat
deriving DecidableEq, Repr

/-- The empty region returned for unregistered transfer-buffer ids. -/
def nullBuffer : Buffer := ⟨0, 0⟩

/-- The immutable inputs of a session: the ring buffer (each word read
through its header view), its capacity in words, the execution backend
`api opcode argCount ptr` (the pointer is a word offset into the ring
buffer), whether the decoder can make its context current, the per-call
command limit the processor was constructed with, and the transfer-buffer
table. -/
structure Session where
  buffer : Nat → CommandHeader
  entryCount : Nat
  api : Nat → Nat → Nat → ParseError
  makeCurrentOk : Bool
  commandsPerUpdate : Nat
  transferBuffers : List (Nat × Buffer)

/-- Externally observable actions of the engine, in the order they happen. -/
inductive Event where
  | makeCurrent
  | readPut (put : Nat)
  | dispatch (opcode argCount ptr : Nat)
  | setParseError (e : ParseError)
  | raiseErrorStatus
  | setGetOffset (g : Nat)
  | setToken (t : Int)
  | postTask
deriving DecidableEq, Repr

/-- The mutable state of a session: the parser's internal get offset, the
get offset last written back to the shared counter, the latched parse error,
the fatal error-status flag, and the last forwarded token. -/
structure State where
  parserGet : Nat
  sharedGet : Nat
  parseError : ParseError
  errorStatus : Bool
  token : Int
deriving DecidableEq, Repr

/-- Result of parsing one command: either the command's declared extent
would overrun the currently committed bound, or it was handled with a
status, a new get offset and an optional dispatch to the backend. -/
inductive StepResult where
  | overrun
  | done (status : ParseError) (newGet : Nat) (dispatched : Option (Nat × Nat × Nat))
deriving DecidableEq, Repr

/-- Modelled from the spec (§4.2): true when the command's declared extent
reads past the committed bound `put` (or, on a wrapped pass, past the end of
the buffer, since a command is self-contained and never wraps). -/
def wouldOverrun (S : Session) (put get size : Nat) : Bool :=
  if get ≤ put then decide (put < get + size)
  else decide (S.entryCount < get + size)

/-- Modelled from the spec (§4.2 `process_one_command`), with the missing
`CommandParser::ProcessCommand` conventions pinned by the unit tests: reads
the header at `get`; a zero declared size is an invalid-size error; a
command reading past `put` is reported as an overrun without advancing
`get`; otherwise the backend is invoked with the opcode, `size - 1` argument
words and a pointer to the command's first word, and `get` advances by the
declared size, modulo the capacity. -/
def processOneCommand (S : Session) (put get : Nat) : StepResult :=
  if (S.buffer get).size = 0 then
    .done .invalidSize get none
  else if wouldOverrun S put get (S.buffer get).size then
    .overrun
  else
    .done (S.api (S.buffer get).command ((S.buffer get).size - 1) get)
      ((get + (S.buffer get).size) % S.entryCount)
      (some ((S.buffer get).command, (S.buffer get).size - 1, get))

/-- Events recorded for an optional dispatch. -/
def dispatchEvents : Option (Nat × Nat × Nat) → List Event
  | none => []
  | some (op, argc, p) => [.dispatch op argc p]

/-- Latching: the first error wins; a latched error is never overwritten by
a later recoverable code. -/
def latch (err code : ParseError) : ParseError :=
  if err = .noError then code else err

/-- Outcome of the per-call processing loop: the events it produced, the
final parser get offset, the latched error it carries, and whether it halted
on a fatal code. -/
structure LoopResult where
  events : List Event
  finalGet : Nat
  latched : ParseError
  isFatal : Bool
deriving DecidableEq, Repr

/-- Modelled from the spec (§4.3 drain loop of the missing
`GPUProcessor::ProcessCommands`): process commands until the bound is
reached, the per-call budget (`fuel`) is spent, a command would overrun, or
a fatal code stops the pass.  A recoverable code is latched (first
occurrence wins) and processing continues; a fatal code records the error,
raises the error status and halts. -/
def processLoop (S : Session) (put : Nat) :
    Nat → Nat → ParseError → LoopResult
  | 0, get, err => ⟨[], get, err, false⟩
  | fuel + 1, get, err =>
    if get = put then ⟨[], get, err, false⟩
    else
      match processOneCommand S put get with
      | .overrun => ⟨[], get, err, false⟩
      | .done status newGet dispatched =>
        match classify status with
        | .ok =>
          let r := processLoop S put fuel newGet err
          { r with events := dispatchEvents dispatched ++ r.events }
        | .recoverable =>
          let r := processLoop S put fuel newGet (latch err status)
          { r with events := dispatchEvents dispatched ++
              (if err = ParseError.noError then [Event.setParseError status] else []) ++
              r.events }
        | .fatal =>
          ⟨dispatchEvents dispatched ++
            [Event.setParseError status, Event.raiseErrorStatus], newGet, status, true⟩

/-- Result of one `ProcessCommands` call: its event trace and the state it
leaves behind. -/
structure CallResult where
  events : List Event
  state : State
deriving DecidableEq, Repr

/-- Modelled from the spec (§4.3 `ProcessCommands` of the missing
`GPUProcessor`): a no-op while the error status is set; otherwise makes the
decoder's context current (raising the error status on failure), reads the
producer's `put` offset, drains up to `commandsPerUpdate` commands, writes
the reached get offset back, and — unless a fatal code stopped the pass —
posts a continuation task when committed commands remain unconsumed. -/
def ProcessCommands (S : Session) (st : State) (put : Nat) : CallResult :=
  if st.errorStatus then ⟨[], st⟩
  else if S.makeCurrentOk = false then
    ⟨[Event.makeCurrent, Event.raiseErrorStatus], { st with errorStatus := true }⟩
  else
    let lr := processLoop S put S.commandsPerUpdate st.parserGet st.parseError
    if lr.isFatal then
      ⟨Event.makeCurrent :: Event.readPut put ::
        (lr.events ++ [Event.setGetOffset lr.finalGet]),
       { st with parserGet := lr.finalGet, sharedGet := lr.finalGet,
                 parseError := lr.latched, errorStatus := true }⟩
    else
      ⟨Event.makeCurrent :: Event.readPut put ::
        (lr.events ++ [Event.setGetOffset lr.finalGet] ++
          (if lr.finalGet = put then [] else [Event.postTask])),
       { st with parserGet := lr.finalGet, sharedGet := lr.finalGet,
                 parseError := lr.latched }⟩

/-- Modelled from the spec (§4.4): transfer-buffer lookup in the table. -/
def lookupTransferBuffer : List (Nat × Buffer) → Nat → Buffer
  | [], _ => nullBuffer
  | (i, b) :: rest, id => if i = id then b else lookupTransferBuffer rest id

/-- Modelled from the spec (§4.4): registering replaces any entry with the
same id. -/
def registerTransferBuffer (tbl : List (Nat × Buffer)) (id : Nat) (b : Buffer) :
    List (Nat × Buffer) :=
  (id, b) :: tbl.filter (fun e => e.1 != id)

/-- Modelled from the spec (§4.4): unregistering removes the id's entries. -/
def unregisterTransferBuffer (tbl : List (Nat × Buffer)) (id : Nat) :
    List (Nat × Buffer) :=
  tbl.filter (fun e => e.1 != id)

/-- Whether an id has an entry in the transfer-buffer table. -/
def isRegistered (tbl : List (Nat × Buffer)) (id : Nat) : Bool :=
  tbl.any (fun e => e.1 == id)

/-- Modelled from the spec (§4.3): `GetSharedMemoryBuffer` delegates to the
transfer-buffer registry. -/
def GetSharedMemoryBuffer (S : Session) (id : Nat) : Buffer :=
  lookupTransferBuffer S.transferBuffers id

/-- The session with its transfer-buffer table replaced. -/
def withTransferBuffers (S : Session) (tbl : List (Nat × Buffer)) : Session :=
  { S with transferBuffers := tbl }

/-- Modelled from the spec (§4.3 `set_token`): forwards the value verbatim
to the shared-state holder and does nothing else. -/
def set_token (st : State) (value : Int) : CallResult :=
  ⟨[Event.setToken value], { st with token := value }⟩

/-- Whether an event is a backend dispatch. -/
def isDispatch : Event → Bool
  | .dispatch _ _ _ => true
  | _ => false

/-- The dispatch events of a trace, in order. -/
def dispatchesOf (evs : List Event) : List Event := evs.filter isDispatch

/-- How many backend dispatches a trace contains. -/
def countDispatches (evs : List Event) : Nat := (dispatchesOf evs).length

/-! Command chains: the layout of a sequence of committed commands, used to
state the claims about whole passes. -/

/-- `isChain S o sizes put` holds when the buffer holds, starting at offset
`o`, a sequence of commands with the declared sizes `sizes` (each at least
one word) ending exactly at offset `put`. -/
def isChain (S : Session) : Nat → List Nat → Nat → Bool
  | o, [], put => o == put
  | o, s :: rest, put =>
    decide (1 ≤ s) && ((S.buffer o).size == s) && isChain S (o + s) rest put

/-- The offset just after a sequence of commands with the given sizes. -/
def endOffset : Nat → List Nat → Nat
  | o, [] => o
  | o, s :: rest => endOffset (o + s) rest

/-- The backend dispatches a chain of commands produces, in commit order. -/
def chainDispatches (S : Session) : Nat → List Nat → List Event
  | _, [] => []
  | o, s :: rest =>
    Event.dispatch (S.buffer o).command (s - 1) o :: chainDispatches S (o + s) rest

/-- The backend status of each command of a chain, in commit order. -/
def chainResults (S : Session) : Nat → List Nat → List ParseError
  | _, [] => []
  | o, s :: rest =>
    S.api (S.buffer o).command (s - 1) o :: chainResults S (o + s) rest

/-- The events a fatal-free drain of a chain produces: each dispatch,
followed by a latching event when the command's status is the first
recoverable code observed. -/
def chainEvents (S : Session) : Nat → List Nat → ParseError → List Event
  | _, [], _ => []
  | o, s :: rest, err =>
    Event.dispatch (S.buffer o).command (s - 1) o ::
      ((if classify (S.api (S.buffer o).command (s - 1) o) = .recoverable ∧
            err = .noError
        then [Event.setParseError (S.api (S.buffer o).command (s - 1) o)] else []) ++
       chainEvents S (o + s) rest
         (if classify (S.api (S.buffer o).command (s - 1) o) = .recoverable
          then latch err (S.api (S.buffer o).command (s - 1) o) else err))

/-- The latch a fatal-free drain carries after a list of statuses. -/
def latchFold (err : ParseError) : List ParseError → ParseError
  | [] => err
  | r :: rest =>
    latchFold (if classify r = .recoverable then latch err r else err) rest

/-- The first non-`noError` code of a list of statuses. -/
def firstError : List ParseError → ParseError
  | [] => .noError
  | r :: rest => if r = .noError then firstError rest else r

/-! Concrete sessions mirroring the scenarios of the unit tests. -/

/-- The ring buffer of the multi-command tests: a command `7` of declared
size 2 at word 0 (its argument word 123 at word 1), a command `8` of size 1
at word 2 and a command `9` of size 1 at word 3. -/
def testBuffer : Nat → CommandHeader := fun i =>
  if i = 0 then ⟨7, 2⟩
  else if i = 1 then ⟨123, 0⟩
  else if i = 2 then ⟨8, 1⟩
  else if i = 3 then ⟨9, 1⟩
  else ⟨0, 0⟩

/-- A backend that succeeds on every command. -/
def okApi : Nat → Nat → Nat → ParseError := fun _ _ _ => .noError

/-- A backend that reports an unknown command (recoverable) for opcode 7. -/
def recApi : Nat → Nat → Nat → ParseError := fun op _ _ =>
  if op = 7 then .unknownCommand else .noError

/-- A backend that reports an invalid size (fatal) for opcode 7. -/
def fatApi : Nat → Nat → Nat → ParseError := fun op _ _ =>
  if op = 7 then .invalidSize else .noError

/-- The ring buffer of the error tests: a command `7` of size 1 at word 0
and a command `8` of size 1 at word 1. -/
def errBuffer : Nat → CommandHeader := fun i =>
  if i = 0 then ⟨7, 1⟩
  else if i = 1 then ⟨8, 1⟩
  else ⟨0, 0⟩

/-- The session of the happy-path tests: 256-word ring, all-success
backend, per-call limit 2 (as in the tests' processor construction). -/
def S1 : Session := ⟨testBuffer, 256, okApi, true, 2, []⟩

/-- The session of the recoverable-error tests. -/
def S2 : Session := ⟨errBuffer, 256, recApi, true, 2, []⟩

/-- The session of the fatal-error tests. -/
def S3 : Session := ⟨errBuffer, 256, fatApi, true, 2, []⟩

/-- The initial session state: both cursors at 0, no latched error, error
status clear. -/
def st0 : State := ⟨0, 0, .noError, false, 0⟩

/-! Basic facts about chains and the drain loop. -/

theorem isChain_le (S : Session) (sizes : List Nat) :
    ∀ o put : Nat, isChain S o sizes put = true → o ≤ put := by
  induction sizes with
  | nil =>
    intro o put h
    simp [isChain] at h
    omega
  | cons s rest ih =>
    intro o put h
    simp [isChain] at h
    have := ih (o + s) put h.2
    omega

theorem isChain_endOffset (S : Session) (sizes : List Nat) :
    ∀ o put : Nat, isChain S o sizes put = true → endOffset o sizes = put := by
  induction sizes with
  | nil =>
    intro o put h
    simpa [isChain, endOffset] using h
  | cons s rest ih =>
    intro o put h
    simp [isChain] at h
    exact ih (o + s) put h.2

theorem isChain_append (S : Session) (xs : List Nat) :
    ∀ (ys : List Nat) (o put : Nat), isChain S o (xs ++ ys) put = true →
      isChain S (endOffset o xs) ys put = true := by
  induction xs with
  | nil => intro ys o put h; simpa [endOffset] using h
  | cons x xs ih =>
    intro ys o put h
    simp only [List.cons_append, isChain, Bool.and_eq_true] at h
    exact ih ys (o + x) put h.2

theorem chainResults_append (S : Session) (xs : List Nat) :
    ∀ (ys : List Nat) (o : Nat),
      chainResults S o (xs ++ ys) =
        chainResults S o xs ++ chainResults S (endOffset o xs) ys := by
  induction xs with
  | nil => intro ys o; simp [chainResults, endOffset]
  | cons x xs ih =>
    intro ys o
    simp only [List.cons_append, chainResults, endOffset, List.append_eq]
    rw [ih]

theorem chainDispatches_append (S : Session) (xs : List Nat) :
    ∀ (ys : List Nat) (o : Nat),
      chainDispatches S o (xs ++ ys) =
        chainDispatches S o xs ++ chainDispatches S (endOffset o xs) ys := by
  induction xs with
  | nil => intro ys o; simp [chainDispatches, endOffset]
  | cons x xs ih =>
    intro ys o
    simp only [List.cons_append, chainDispatches, endOffset, List.append_eq]
    rw [ih]

theorem chainDispatches_length (S : Session) (sizes : List Nat) :
    ∀ o : Nat, (chainDispatches S o sizes).length = sizes.length := by
  induction sizes with
  | nil => intro o; simp [chainDispatches]
  | cons s rest ih => intro o; simp [chainDispatches, ih]

theorem wouldOverrun_false (S : Session) {put get size : Nat}
    (h1 : get ≤ put) (h2 : get + size ≤ put) :
    wouldOverrun S put get size = false := by
  simp only [wouldOverrun, if_pos h1, decide_eq_false_iff_not]
  omega

theorem processOneCommand_done (S : Session) {put get s : Nat}
    (hsize : (S.buffer get).size = s) (hs : 1 ≤ s)
    (h2 : get + s ≤ put) (hput : put < S.entryCount) :
    processOneCommand S put get =
      .done (S.api (S.buffer get).command (s - 1) get) (get + s)
        (some ((S.buffer get).command, s - 1, get)) := by
  unfold processOneCommand
  rw [hsize, if_neg (by omega), wouldOverrun_false S (by omega) h2]
  simp [Nat.mod_eq_of_lt (show get + s < S.entryCount by omega)]

theorem processLoop_self (S : Session) (put fuel : Nat) (err : ParseError) :
    processLoop S put fuel put err = ⟨[], put, err, false⟩ := by
  cases fuel <;> simp [processLoop]

theorem processLoop_fatal_step (S : Session) {put o s : Nat}
    (fuel : Nat) (err : ParseError)
    (hsize : (S.buffer o).size = s) (hs : 1 ≤ s)
    (h2 : o + s ≤ put) (hput : put < S.entryCount)
    (hfat : classify (S.api (S.buffer o).command (s - 1) o) = .fatal) :
    processLoop S put (fuel + 1) o err =
      ⟨[Event.dispatch (S.buffer o).command (s - 1) o,
        Event.setParseError (S.api (S.buffer o).command (s - 1) o),
        Event.raiseErrorStatus],
       o + s, S.api (S.buffer o).command (s - 1) o, true⟩ := by
  have hne : o ≠ put := by omega
  simp only [processLoop, if_neg hne, processOneCommand_done S hsize hs h2 hput, hfat]
  simp [dispatchEvents]

theorem processLoop_prefix (S : Session) {put : Nat} (hput : put < S.entryCount)
    (pre : List Nat) :
    ∀ (rest : List Nat) (fuel o : Nat) (err : ParseError),
      isChain S o (pre ++ rest) put = true →
      pre.length ≤ fuel →
      (∀ r ∈ chainResults S o pre, classify r ≠ .fatal) →
      processLoop S put fuel o err =
        { processLoop S put (fuel - pre.length) (endOffset o pre)
            (latchFold err (chainResults S o pre)) with
          events := chainEvents S o pre err ++
            (processLoop S put (fuel - pre.length) (endOffset o pre)
              (latchFold err (chainResults S o pre))).events } := by
  induction pre with
  | nil =>
    intro rest fuel o err hch hfuel hnf
    simp [endOffset, chainResults, chainEvents, latchFold]
  | cons s pre ih =>
    intro rest fuel o err hch hfuel hnf
    simp only [List.cons_append, isChain, Bool.and_eq_true, decide_eq_true_eq,
      beq_iff_eq] at hch
    obtain ⟨⟨hs, hsize⟩, hrest⟩ := hch
    have hmid : o + s ≤ put := isChain_le S (pre ++ rest) (o + s) put hrest
    obtain ⟨f, rfl⟩ : ∃ f, fuel = f + 1 := by
      cases fuel with
      | zero => simp at hfuel
      | succ f => exact ⟨f, rfl⟩
    have hne : o ≠ put := by omega
    have hnfhead : classify (S.api (S.buffer o).command (s - 1) o) ≠ .fatal := by
      apply hnf
      simp [chainResults]
    have hnftail : ∀ r ∈ chainResults S (o + s) pre, classify r ≠ .fatal := by
      intro r hr
      apply hnf
      simp [chainResults, hr]
    rcases hc : classify (S.api (S.buffer o).command (s - 1) o) with _ | _ | _
    · have hih := ih rest f (o + s) err hrest (by simpa using hfuel) hnftail
      simp only [processLoop, if_neg hne,
        processOneCommand_done S hsize hs hmid hput, hc]
      rw [hih]
      simp [dispatchEvents, chainEvents, chainResults, latchFold, endOffset, hc,
        List.append_eq, Nat.add_sub_add_right]
    · have hih := ih rest f (o + s)
        (latch err (S.api (S.buffer o).command (s - 1) o)) hrest
        (by simpa using hfuel) hnftail
      simp only [processLoop, if_neg hne,
        processOneCommand_done S hsize hs hmid hput, hc]
      rw [hih]
      simp [dispatchEvents, chainEvents, chainResults, latchFold, endOffset, hc,
        List.append_eq, Nat.add_sub_add_right]
    · exact absurd hc hnfhead

/-- Full drain of a chain: with enough budget and no fatal status, the loop
dispatches every command in order, ends at `put`, carries the folded latch
and does not halt. -/
theorem processLoop_chain_all (S : Session) {put : Nat} (hput : put < S.entryCount)
    (sizes : List Nat) (fuel o : Nat) (err : ParseError)
    (hch : isChain S o sizes put = true)
    (hfuel : sizes.length ≤ fuel)
    (hnf : ∀ r ∈ chainResults S o sizes, classify r ≠ .fatal) :
    processLoop S put fuel o err =
      ⟨chainEvents S o sizes err, put,
       latchFold err (chainResults S o sizes), false⟩ := by
  have h1 := processLoop_prefix S hput sizes [] fuel o err
    (by simpa using hch) hfuel hnf
  have h2 : endOffset o sizes = put := isChain_endOffset S sizes o put hch
  rw [h1, h2, processLoop_self]
  simp

/-- Budget-limited drain of a chain: when the chain is at least as long as
the budget, the loop consumes exactly the first `fuel` commands. -/
theorem processLoop_chain_fuel (S : Session) {put : Nat} (hput : put < S.entryCount)
    (sizes : List Nat) (fuel o : Nat) (err : ParseError)
    (hch : isChain S o sizes put = true)
    (hfuel : fuel ≤ sizes.length)
    (hnf : ∀ r ∈ chainResults S o (sizes.take fuel), classify r ≠ .fatal) :
    processLoop S put fuel o err =
      ⟨chainEvents S o (sizes.take fuel) err, endOffset o (sizes.take fuel),
       latchFold err (chainResults S o (sizes.take fuel)), false⟩ := by
  have h1 := processLoop_prefix S hput (sizes.take fuel) (sizes.drop fuel) fuel o err
    (by rw [List.take_append_drop]; exact hch)
    (by simp) hnf
  have hlen : (sizes.take fuel).length = fuel := by
    simp [List.length_take]
    omega
  rw [h1, hlen]
  simp [processLoop]

/-- Fatal halt: after a fatal-free prefix, the first fatal status stops the
pass right after its own dispatch, latches the fatal code and reports the
halt; `get` ends just past the fatal command. -/
theorem processLoop_chain_fatal (S : Session) {put : Nat} (hput : put < S.entryCount)
    (pre : List Nat) {s : Nat} (post : List Nat) (fuel o : Nat) (err : ParseError)
    (hch : isChain S o (pre ++ s :: post) put = true)
    (hfuel : pre.length < fuel)
    (hnf : ∀ r ∈ chainResults S o pre, classify r ≠ .fatal)
    (hfat : classify (S.api (S.buffer (endOffset o pre)).command (s - 1)
      (endOffset o pre)) = .fatal) :
    processLoop S put fuel o err =
      ⟨chainEvents S o pre err ++
        [Event.dispatch (S.buffer (endOffset o pre)).command (s - 1) (endOffset o pre),
         Event.setParseError (S.api (S.buffer (endOffset o pre)).command (s - 1)
           (endOffset o pre)),
         Event.raiseErrorStatus],
       endOffset o pre + s,
       S.api (S.buffer (endOffset o pre)).command (s - 1) (endOffset o pre),
       true⟩ := by
  have h1 := processLoop_prefix S hput pre (s :: post) fuel o err hch
    (Nat.le_of_lt hfuel) hnf
  have hmid := isChain_append S pre (s :: post) o put hch
  simp only [isChain, Bool.and_eq_true, decide_eq_true_eq, beq_iff_eq] at hmid
  obtain ⟨⟨hs, hsize⟩, hrest⟩ := hmid
  have hle : endOffset o pre + s ≤ put := isChain_le S post _ put hrest
  obtain ⟨f, hf⟩ : ∃ f, fuel - pre.length = f + 1 := ⟨fuel - pre.length - 1, by omega⟩
  rw [h1, hf, processLoop_fatal_step S f _ hsize hs hle hput hfat]

/-! Accounting of dispatches and the latch. -/

theorem dispatchesOf_append (a b : List Event) :
    dispatchesOf (a ++ b) = dispatchesOf a ++ dispatchesOf b := by
  simp [dispatchesOf]

theorem countDispatches_append (a b : List Event) :
    countDispatches (a ++ b) = countDispatches a + countDispatches b := by
  simp [countDispatches, dispatchesOf_append]

theorem chainDispatches_isDispatch (S : Session) (sizes : List Nat) :
    ∀ o : Nat, ∀ e ∈ chainDispatches S o sizes, isDispatch e = true := by
  induction sizes with
  | nil => intro o e he; simp [chainDispatches] at he
  | cons s rest ih =>
    intro o e he
    simp only [chainDispatches, List.mem_cons] at he
    rcases he with rfl | he
    · rfl
    · exact ih (o + s) e he

theorem dispatchesOf_chainDispatches (S : Session) (sizes : List Nat) (o : Nat) :
    dispatchesOf (chainDispatches S o sizes) = chainDispatches S o sizes :=
  List.filter_eq_self.2 (chainDispatches_isDispatch S sizes o)

theorem dispatchesOf_chainEvents (S : Session) (sizes : List Nat) :
    ∀ (o : Nat) (err : ParseError),
      dispatchesOf (chainEvents S o sizes err) = chainDispatches S o sizes := by
  induction sizes with
  | nil => intro o err; simp [chainEvents, chainDispatches, dispatchesOf]
  | cons s rest ih =>
    intro o err
    simp only [chainEvents, chainDispatches, dispatchesOf, List.filter_cons,
      List.filter_append]
    rw [if_pos (show isDispatch (Event.dispatch (S.buffer o).command (s - 1) o) =
      true from rfl)]
    have hlat : List.filter isDispatch
        (if classify (S.api (S.buffer o).command (s - 1) o) = ErrorClass.recoverable ∧
            err = ParseError.noError
         then [Event.setParseError (S.api (S.buffer o).command (s - 1) o)]
         else []) = [] := by
      by_cases hc : classify (S.api (S.buffer o).command (s - 1) o) =
          ErrorClass.recoverable ∧ err = ParseError.noError
      · rw [if_pos hc]; rfl
      · rw [if_neg hc]; rfl
    rw [hlat]
    simp only [List.nil_append]
    exact congrArg _ (ih (o + s) _)

theorem countDispatches_chainEvents (S : Session) (sizes : List Nat)
    (o : Nat) (err : ParseError) :
    countDispatches (chainEvents S o sizes err) = sizes.length := by
  rw [countDispatches, dispatchesOf_chainEvents, chainDispatches_length]

theorem countDispatches_processLoop (S : Session) (put : Nat) :
    ∀ (fuel o : Nat) (err : ParseError),
      countDispatches (processLoop S put fuel o err).events ≤ fuel := by
  intro fuel
  induction fuel with
  | zero => intro o err; simp [processLoop, countDispatches, dispatchesOf]
  | succ fuel ih =>
    intro o err
    by_cases hne : o = put
    · subst hne
      simp [processLoop, countDispatches, dispatchesOf]
    · simp only [processLoop, if_neg hne]
      rcases hstep : processOneCommand S put o with _ | ⟨status, newGet, dispatched⟩
      · simp [countDispatches, dispatchesOf]
      · have hdis : countDispatches (dispatchEvents dispatched) ≤ 1 := by
          rcases dispatched with _ | ⟨op, argc, p⟩ <;>
            simp [dispatchEvents, countDispatches, dispatchesOf, isDispatch]
        rcases hc : classify status with _ | _ | _
        · simp only [hc, countDispatches_append]
          have := ih newGet err
          omega
        · simp only [hc, countDispatches_append]
          have := ih newGet (latch err status)
          have hlat : countDispatches
              (if err = ParseError.noError
               then [Event.setParseError status] else []) = 0 := by
            by_cases herr : err = ParseError.noError <;>
              simp [herr, countDispatches, dispatchesOf, isDispatch]
          omega
        · simp only [hc, countDispatches_append]
          have h2 : countDispatches
              [Event.setParseError status, Event.raiseErrorStatus] = 0 := by
            simp [countDispatches, dispatchesOf, isDispatch]
          omega

theorem classify_eq_ok_iff (r : ParseError) : classify r = .ok ↔ r = .noError := by
  cases r <;> simp [classify]

theorem latchFold_all_ok (rs : List ParseError) :
    ∀ err : ParseError, (∀ r ∈ rs, r = .noError) → latchFold err rs = err := by
  induction rs with
  | nil => intro err _; rfl
  | cons r rest ih =>
    intro err h
    have hr : r = .noError := h r (by simp)
    subst hr
    simp only [latchFold, classify]
    have : ErrorClass.ok ≠ ErrorClass.recoverable := by decide
    rw [if_neg this]
    exact ih err fun x hx => h x (by simp [hx])

theorem latchFold_stuck (rs : List ParseError) :
    ∀ err : ParseError, err ≠ .noError → latchFold err rs = err := by
  induction rs with
  | nil => intro err _; rfl
  | cons r rest ih =>
    intro err herr
    simp only [latchFold, latch, if_neg herr]
    by_cases hc : classify r = .recoverable
    · rw [if_pos hc]; exact ih err herr
    · rw [if_neg hc]; exact ih err herr

theorem latchFold_firstError (rs : List ParseError) :
    (∀ r ∈ rs, classify r ≠ .fatal) →
      latchFold .noError rs = firstError rs := by
  induction rs with
  | nil => intro _; rfl
  | cons r rest ih =>
    intro h
    have hr := h r (by simp)
    simp only [latchFold, firstError, latch]
    by_cases hne : r = ParseError.noError
    · subst hne
      have : classify ParseError.noError ≠ ErrorClass.recoverable := by decide
      rw [if_neg this, if_pos rfl]
      exact ih fun x hx => h x (by simp [hx])
    · have hrec : classify r = .recoverable := by
        cases r <;> simp_all [classify]
      rw [if_pos hrec, if_neg hne]
      simp only [if_true]
      exact latchFold_stuck rest r hne

theorem chainEvents_all_ok (S : Session) (sizes : List Nat) :
    ∀ (o : Nat) (err : ParseError),
      (∀ r ∈ chainResults S o sizes, r = .noError) →
      chainEvents S o sizes err = chainDispatches S o sizes := by
  induction sizes with
  | nil => intro o err _; rfl
  | cons s rest ih =>
    intro o err h
    have hr : S.api (S.buffer o).command (s - 1) o = .noError :=
      h _ (by simp [chainResults])
    simp only [chainEvents, chainDispatches, hr, classify]
    have h1 : ¬(ErrorClass.ok = ErrorClass.recoverable ∧ err = ParseError.noError) := by
      simp
    have h2 : ErrorClass.ok ≠ ErrorClass.recoverable := by decide
    rw [if_neg h1, if_neg h2]
    simp only [List.nil_append]
    rw [ih (o + s) err fun x hx => h x (by simp [chainResults, hx])]

/-! Behavior of a whole `ProcessCommands` call over a chain. -/

theorem isChain_mid_lt (S : Session) (sizes : List Nat) (o put k : Nat)
    (hch : isChain S o sizes put = true) (hk : k < sizes.length) :
    endOffset o (sizes.take k) < put := by
  have h := isChain_append S (sizes.take k) (sizes.drop k) o put
    (by rw [List.take_append_drop]; exact hch)
  obtain ⟨s, rest, hd⟩ : ∃ s rest, sizes.drop k = s :: rest := by
    cases hdrop : sizes.drop k with
    | nil =>
      rw [List.drop_eq_nil_iff] at hdrop
      omega
    | cons s rest => exact ⟨s, rest, rfl⟩
  rw [hd] at h
  simp only [isChain, Bool.and_eq_true, decide_eq_true_eq, beq_iff_eq] at h
  have h2 := isChain_le S rest _ put h.2
  have hs := h.1.1
  omega

/-- A full no-fatal drain at call level: every chained command is dispatched,
`put` is written back, no continuation task is posted. -/
theorem ProcessCommands_chain_all (S : Session) (st : State) (put : Nat)
    (sizes : List Nat)
    (hE : st.errorStatus = false) (hmc : S.makeCurrentOk = true)
    (hput : put < S.entryCount)
    (hch : isChain S st.parserGet sizes put = true)
    (hfuel : sizes.length ≤ S.commandsPerUpdate)
    (hnf : ∀ r ∈ chainResults S st.parserGet sizes, classify r ≠ .fatal) :
    ProcessCommands S st put =
      ⟨Event.makeCurrent :: Event.readPut put ::
        (chainEvents S st.parserGet sizes st.parseError ++ [Event.setGetOffset put]),
       { st with parserGet := put, sharedGet := put,
                 parseError := latchFold st.parseError
                   (chainResults S st.parserGet sizes) }⟩ := by
  have hloop := processLoop_chain_all S hput sizes S.commandsPerUpdate
    st.parserGet st.parseError hch hfuel hnf
  simp [ProcessCommands, hE, hmc, hloop]

/-- A budget-limited drain at call level: exactly the per-call limit of
commands is dispatched, the offset reached is written back, and a
continuation task is posted. -/
theorem ProcessCommands_chain_fuel (S : Session) (st : State) (put : Nat)
    (sizes : List Nat)
    (hE : st.errorStatus = false) (hmc : S.makeCurrentOk = true)
    (hput : put < S.entryCount)
    (hch : isChain S st.parserGet sizes put = true)
    (hfuel : S.commandsPerUpdate < sizes.length)
    (hnf : ∀ r ∈ chainResults S st.parserGet (sizes.take S.commandsPerUpdate),
      classify r ≠ .fatal) :
    ProcessCommands S st put =
      ⟨Event.makeCurrent :: Event.readPut put ::
        (chainEvents S st.parserGet (sizes.take S.commandsPerUpdate) st.parseError ++
          [Event.setGetOffset (endOffset st.parserGet (sizes.take S.commandsPerUpdate)),
           Event.postTask]),
       { st with
         parserGet := endOffset st.parserGet (sizes.take S.commandsPerUpdate),
         sharedGet := endOffset st.parserGet (sizes.take S.commandsPerUpdate),
         parseError := latchFold st.parseError
           (chainResults S st.parserGet (sizes.take S.commandsPerUpdate)) }⟩ := by
  have hmid := isChain_mid_lt S sizes st.parserGet put S.commandsPerUpdate hch hfuel
  have hloop := processLoop_chain_fuel S hput sizes S.commandsPerUpdate
    st.parserGet st.parseError hch (Nat.le_of_lt hfuel) hnf
  have hne : endOffset st.parserGet (sizes.take S.commandsPerUpdate) ≠ put := by omega
  simp [ProcessCommands, hE, hmc, hloop, hne]

/-- A fatal drain at call level: the pass stops right after the fatal
command, latches its code, raises the error status, writes back the offset
reached through that command and posts nothing. -/
theorem ProcessCommands_chain_fatal (S : Session) (st : State) (put : Nat)
    (pre : List Nat) (s : Nat) (post : List Nat)
    (hE : st.errorStatus = false) (hmc : S.makeCurrentOk = true)
    (hput : put < S.entryCount)
    (hch : isChain S st.parserGet (pre ++ s :: post) put = true)
    (hfuel : pre.length < S.commandsPerUpdate)
    (hnf : ∀ r ∈ chainResults S st.parserGet pre, classify r ≠ .fatal)
    (hfat : classify (S.api (S.buffer (endOffset st.parserGet pre)).command (s - 1)
      (endOffset st.parserGet pre)) = .fatal) :
    ProcessCommands S st put =
      ⟨Event.makeCurrent :: Event.readPut put ::
        (chainEvents S st.parserGet pre st.parseError ++
          [Event.dispatch (S.buffer (endOffset st.parserGet pre)).command (s - 1)
             (endOffset st.parserGet pre),
           Event.setParseError (S.api (S.buffer (endOffset st.parserGet pre)).command
             (s - 1) (endOffset st.parserGet pre)),
           Event.raiseErrorStatus,
           Event.setGetOffset (endOffset st.parserGet pre + s)]),
       { st with
         parserGet := endOffset st.parserGet pre + s,
         sharedGet := endOffset st.parserGet pre + s,
         parseError := S.api (S.buffer (endOffset st.parserGet pre)).command (s - 1)
           (endOffset st.parserGet pre),
         errorStatus := true }⟩ := by
  have hloop := processLoop_chain_fatal S hput pre post S.commandsPerUpdate
    st.parserGet st.parseError hch hfuel hnf hfat
  simp [ProcessCommands, hE, hmc, hloop]

/-- A call whose error status is already raised is a no-op: no events at
all — in particular the put offset is not read — and the state is
untouched. -/
theorem ProcessCommands_noop (S : Session) (st : State) (put : Nat)
    (hE : st.errorStatus = true) :
    ProcessCommands S st put = ⟨[], st⟩ := by
  simp [ProcessCommands, hE]

theorem dispatchesOf_cons_other (e : Event) (l : List Event)
    (he : isDispatch e = false) :
    dispatchesOf (e :: l) = dispatchesOf l := by
  simp [dispatchesOf, List.filter_cons, he]

/-- The per-call dispatch budget holds for every call, whatever the buffer,
backend and state. -/
theorem countDispatches_ProcessCommands (S : Session) (st : State) (put : Nat) :
    countDispatches (ProcessCommands S st put).events ≤ S.commandsPerUpdate := by
  have hloop := countDispatches_processLoop S put S.commandsPerUpdate
    st.parserGet st.parseError
  cases hE : st.errorStatus with
  | true => simp [ProcessCommands, hE, countDispatches, dispatchesOf]
  | false =>
    cases hmc : S.makeCurrentOk with
    | false =>
      simp [ProcessCommands, hE, hmc, countDispatches, dispatchesOf,
        List.filter_cons, isDispatch]
    | true =>
      cases hf : (processLoop S put S.commandsPerUpdate st.parserGet
          st.parseError).isFatal with
      | true =>
        simp only [ProcessCommands, hE, hmc, hf, Bool.false_eq_true,
          Bool.true_eq_false, if_false, if_true]
        rw [countDispatches, dispatchesOf_cons_other Event.makeCurrent _ rfl,
          dispatchesOf_cons_other (Event.readPut put) _ rfl, dispatchesOf_append]
        have h0 : dispatchesOf [Event.setGetOffset
            (processLoop S put S.commandsPerUpdate st.parserGet
              st.parseError).finalGet] = [] := rfl
        rw [h0]
        simpa [countDispatches] using hloop
      | false =>
        simp only [ProcessCommands, hE, hmc, hf, Bool.false_eq_true,
          Bool.true_eq_false, if_false, if_true]
        rw [countDispatches, dispatchesOf_cons_other Event.makeCurrent _ rfl,
          dispatchesOf_cons_other (Event.readPut put) _ rfl, dispatchesOf_append,
          dispatchesOf_append]
        have h0 : dispatchesOf [Event.setGetOffset
            (processLoop S put S.commandsPerUpdate st.parserGet
              st.parseError).finalGet] = [] := rfl
        have h1 : dispatchesOf
            (if (processLoop S put S.commandsPerUpdate st.parserGet
                st.parseError).finalGet = put
             then [] else [Event.postTask]) = [] := by
          by_cases hg : (processLoop S put S.commandsPerUpdate st.parserGet
              st.parseError).finalGet = put
          · rw [if_pos hg]; rfl
          · rw [if_neg hg]; rfl
        rw [h0, h1]
        simpa [countDispatches] using hloop

theorem lookup_not_registered (tbl : List (Nat × Buffer)) (id : Nat)
    (h : isRegistered tbl id = false) :
    lookupTransferBuffer tbl id = nullBuffer := by
  induction tbl with
  | nil => rfl
  | cons e rest ih =>
    obtain ⟨i, b⟩ := e
    simp only [isRegistered, List.any_cons, Bool.or_eq_false_iff, beq_eq_false_iff_ne,
      ne_eq] at h
    simp only [lookupTransferBuffer, if_neg h.1]
    exact ih h.2

/-! Model validation: the model reproduces the observable behavior the unit
tests expect. -/

/-- The model reproduces `ProcessorDoesNothingIfRingBufferIsEmpty`. -/
theorem model_empty_ring :
    ProcessCommands S1 st0 0 =
      ⟨[.makeCurrent, .readPut 0, .setGetOffset 0], st0⟩ := by decide

/-- The model reproduces `ProcessesOneCommand`: header `{command 7, size 2}`
at word 0 dispatches `DoCommand(7, 1, buffer + 0)` and get ends at 2. -/
theorem model_one_command :
    ProcessCommands S1 st0 2 =
      ⟨[.makeCurrent, .readPut 2, .dispatch 7 1 0, .setGetOffset 2],
       { st0 with parserGet := 2, sharedGet := 2 }⟩ := by decide

/-- The model reproduces `ProcessesTwoCommands`. -/
theorem model_two_commands :
    ProcessCommands S1 st0 3 =
      ⟨[.makeCurrent, .readPut 3, .dispatch 7 1 0, .dispatch 8 0 2,
        .setGetOffset 3],
       { st0 with parserGet := 3, sharedGet := 3 }⟩ := by decide

/-- The model reproduces `PostsTaskToFinishRemainingCommands`: with three
commands visible and a per-call limit of 2, the first call dispatches
commands 7 and 8, writes back get 3 and posts a task; the rescheduled call
dispatches command 9 and writes back get 4. -/
theorem model_posts_task :
    ProcessCommands S1 st0 4 =
      ⟨[.makeCurrent, .readPut 4, .dispatch 7 1 0, .dispatch 8 0 2,
        .setGetOffset 3, .postTask],
       { st0 with parserGet := 3, sharedGet := 3 }⟩ ∧
    ProcessCommands S1 (ProcessCommands S1 st0 4).state 4 =
      ⟨[.makeCurrent, .readPut 4, .dispatch 9 0 3, .setGetOffset 4],
       { st0 with parserGet := 4, sharedGet := 4 }⟩ := by decide

/-- The model reproduces `SetsErrorCodeOnCommandBuffer` and
`RecoverableParseErrorsAreNotClearedByFollowingSuccessfulCommands`. -/
theorem model_recoverable :
    ProcessCommands S2 st0 2 =
      ⟨[.makeCurrent, .readPut 2, .dispatch 7 0 0,
        .setParseError .unknownCommand, .dispatch 8 0 1, .setGetOffset 2],
       { st0 with parserGet := 2, sharedGet := 2,
                  parseError := .unknownCommand }⟩ := by decide

/-- The model reproduces `UnrecoverableParseErrorsRaiseTheErrorStatus`: the
fatal code halts the pass before command 8. -/
theorem model_fatal :
    ProcessCommands S3 st0 2 =
      ⟨[.makeCurrent, .readPut 2, .dispatch 7 0 0,
        .setParseError .invalidSize, .raiseErrorStatus, .setGetOffset 1],
       { st0 with parserGet := 1, sharedGet := 1,
                  parseError := .invalidSize, errorStatus := true }⟩ := by decide

/-- The model reproduces `ProcessCommandsDoesNothingAfterUnrecoverableError`. -/
theorem model_noop_after_fatal :
    ProcessCommands S3 { st0 with errorStatus := true } 2 =
      ⟨[], { st0 with errorStatus := true }⟩ := by decide

/-- The model reproduces `SetTokenForwardsToCommandBuffer`. -/
theorem model_set_token :
    set_token st0 7 = ⟨[.setToken 7], { st0 with token := 7 }⟩ := by decide

theorem dispatchesOf_call_events (put : Nat) (evs tail : List Event) :
    dispatchesOf (Event.makeCurrent :: Event.readPut put :: (evs ++ tail)) =
      dispatchesOf evs ++ dispatchesOf tail := by
  rw [dispatchesOf_cons_other Event.makeCurrent _ rfl,
    dispatchesOf_cons_other (Event.readPut put) _ rfl, dispatchesOf_append]

/-! The claims. -/

/-- C6: for every session where the producer's put offset equals the current
get offset, `ProcessCommands` dispatches no command to the backend, leaves
the get offset value unchanged, leaves the latched parse error at no-error,
and leaves the error status flag false. -/
theorem claim_C6 (S : Session) (st : State)
    (hE : st.errorStatus = false) (hmc : S.makeCurrentOk = true)
    (hpe : st.parseError = .noError) :
    (ProcessCommands S st st.parserGet).events =
      [Event.makeCurrent, Event.readPut st.parserGet,
       Event.setGetOffset st.parserGet] ∧
    countDispatches (ProcessCommands S st st.parserGet).events = 0 ∧
    (ProcessCommands S st st.parserGet).state.parserGet = st.parserGet ∧
    (ProcessCommands S st st.parserGet).state.sharedGet = st.parserGet ∧
    (ProcessCommands S st st.parserGet).state.parseError = .noError ∧
    (ProcessCommands S st st.parserGet).state.errorStatus = false := by
  have hloop := processLoop_self S st.parserGet S.commandsPerUpdate st.parseError
  rw [hpe] at hloop
  refine ⟨?_, ?_, ?_, ?_, ?_, ?_⟩ <;>
    simp [ProcessCommands, hE, hmc, hloop, hpe, countDispatches, dispatchesOf,
      List.filter_cons, isDispatch]

/-- C6 witness: the empty-ring scenario of the tests. -/
theorem claim_C6_witness :
    (ProcessCommands S1 st0 0).events =
      [Event.makeCurrent, Event.readPut 0, Event.setGetOffset 0] ∧
    countDispatches (ProcessCommands S1 st0 0).events = 0 ∧
    (ProcessCommands S1 st0 0).state.parserGet = 0 ∧
    (ProcessCommands S1 st0 0).state.sharedGet = 0 ∧
    (ProcessCommands S1 st0 0).state.parseError = .noError ∧
    (ProcessCommands S1 st0 0).state.errorStatus = false :=
  claim_C6 S1 st0 rfl rfl rfl

/-- C7: `GetSharedMemoryBuffer(id)` returns exactly the (pointer, size)
region the transfer-buffer table holds for that id — both fields equal to
what was registered — and the empty region for any unregistered id. -/
theorem claim_C7 (S : Session) (tbl : List (Nat × Buffer)) (id : Nat) (b : Buffer)
    (hunreg : isRegistered S.transferBuffers id = false) :
    GetSharedMemoryBuffer (withTransferBuffers S (registerTransferBuffer tbl id b))
      id = b ∧
    (GetSharedMemoryBuffer (withTransferBuffers S (registerTransferBuffer tbl id b))
      id).ptr = b.ptr ∧
    (GetSharedMemoryBuffer (withTransferBuffers S (registerTransferBuffer tbl id b))
      id).size = b.size ∧
    GetSharedMemoryBuffer S id = nullBuffer := by
  have h1 : GetSharedMemoryBuffer
      (withTransferBuffers S (registerTransferBuffer tbl id b)) id = b := by
    simp [GetSharedMemoryBuffer, withTransferBuffers, registerTransferBuffer,
      lookupTransferBuffer]
  exact ⟨h1, by rw [h1], by rw [h1],
    lookup_not_registered S.transferBuffers id hunreg⟩

/-- C7 witness: the registry scenario of the tests, with id 7 mapped to the
ring-buffer region. -/
theorem claim_C7_witness :
    GetSharedMemoryBuffer
      (withTransferBuffers S1 (registerTransferBuffer [] 7 ⟨100, 1024⟩)) 7 =
      ⟨100, 1024⟩ ∧
    (GetSharedMemoryBuffer
      (withTransferBuffers S1 (registerTransferBuffer [] 7 ⟨100, 1024⟩)) 7).ptr =
      100 ∧
    (GetSharedMemoryBuffer
      (withTransferBuffers S1 (registerTransferBuffer [] 7 ⟨100, 1024⟩)) 7).size =
      1024 ∧
    GetSharedMemoryBuffer S1 7 = nullBuffer :=
  claim_C7 S1 [] 7 ⟨100, 1024⟩ rfl

/-- C8: `set_token(v)` forwards `v` verbatim to the shared-state holder and
performs no other observable action: the token is stored unmodified, the
only event is the forwarding itself, and no other state field changes. -/
theorem claim_C8 (st : State) (v : Int) :
    (set_token st v).state.token = v ∧
    (set_token st v).events = [Event.setToken v] ∧
    (set_token st v).state.parserGet = st.parserGet ∧
    (set_token st v).state.sharedGet = st.sharedGet ∧
    (set_token st v).state.parseError = st.parseError ∧
    (set_token st v).state.errorStatus = st.errorStatus := by
  simp [set_token]

/-- C10: every `ProcessCommands` call that is not short-circuited by the
raised error status makes the decoder's context current first: `MakeCurrent`
is the very first observable action, before any backend dispatch, also on
calls that consume nothing. -/
theorem claim_C10 (S : Session) (st : State) (put : Nat)
    (hE : st.errorStatus = false) :
    (ProcessCommands S st put).events.head? = some Event.makeCurrent := by
  cases hmc : S.makeCurrentOk with
  | false => simp [ProcessCommands, hE, hmc]
  | true =>
    cases hf : (processLoop S put S.commandsPerUpdate st.parserGet
        st.parseError).isFatal with
    | true => simp [ProcessCommands, hE, hmc, hf]
    | false => simp [ProcessCommands, hE, hmc, hf]

/-- C10 witness: the context-current scenario of the tests, where nothing is
consumed. -/
theorem claim_C10_witness :
    (ProcessCommands S1 st0 0).events.head? = some Event.makeCurrent :=
  claim_C10 S1 st0 0 rfl

/-- C1 counterexample: with the header `{command 7, size 2}` at word 0 and
the single argument word at word 1 (the scenario of `ProcessesOneCommand`),
the backend is invoked once, with a pointer to word 0 — the command's header
word — and not with a pointer to word 1, the command's first argument word,
as the claim states. -/
theorem claim_C1_counterexample :
    Event.dispatch 7 1 0 ∈ (ProcessCommands S1 st0 2).events ∧
    Event.dispatch 7 1 1 ∉ (ProcessCommands S1 st0 2).events ∧
    countDispatches (ProcessCommands S1 st0 2).events = 1 := by decide

/-- C1 (amended): for a single committed command whose header declares
opcode `c` and size `s`, `ProcessCommands` invokes the backend exactly once,
with opcode `c`, with an argument count of `s - 1` (the declared size counts
the header word together with the trailing argument words), and with a
pointer to the command's first word — its header word, which the argument
words follow — and then advances `get` by header word plus argument count,
i.e. by the declared size. -/
theorem claim_C1 (S : Session) (st : State) (put s : Nat)
    (hE : st.errorStatus = false) (hmc : S.makeCurrentOk = true)
    (hput : put < S.entryCount)
    (hch : isChain S st.parserGet [s] put = true)
    (hfuel : 1 ≤ S.commandsPerUpdate)
    (hok : S.api (S.buffer st.parserGet).command (s - 1) st.parserGet = .noError) :
    (ProcessCommands S st put).events =
      [Event.makeCurrent, Event.readPut put,
       Event.dispatch (S.buffer st.parserGet).command (s - 1) st.parserGet,
       Event.setGetOffset put] ∧
    countDispatches (ProcessCommands S st put).events = 1 ∧
    put = st.parserGet + 1 + (s - 1) ∧
    (ProcessCommands S st put).state.parserGet = put ∧
    (ProcessCommands S st put).state.sharedGet = put := by
  have hnf : ∀ r ∈ chainResults S st.parserGet [s], classify r ≠ .fatal := by
    intro r hr
    simp [chainResults] at hr
    rw [hr, hok]
    simp [classify]
  have hcall := ProcessCommands_chain_all S st put [s] hE hmc hput hch
    (by simpa using hfuel) hnf
  have hchain := hch
  simp only [isChain, Bool.and_eq_true, decide_eq_true_eq, beq_iff_eq] at hchain
  obtain ⟨⟨hs, hsize⟩, hend⟩ := hchain
  have hput2 : st.parserGet + s = put := by simpa [isChain] using hend
  refine ⟨?_, ?_, by omega, ?_, ?_⟩
  · rw [hcall]
    simp [chainEvents, hok, classify]
  · rw [hcall]
    show (dispatchesOf _).length = 1
    rw [dispatchesOf_call_events]
    rw [dispatchesOf_chainEvents]
    simp [chainDispatches, dispatchesOf, isDispatch]
  · rw [hcall]
  · rw [hcall]

/-- C1 witness: the `ProcessesOneCommand` scenario. -/
theorem claim_C1_witness :
    (ProcessCommands S1 st0 2).events =
      [Event.makeCurrent, Event.readPut 2, Event.dispatch 7 1 0,
       Event.setGetOffset 2] ∧
    countDispatches (ProcessCommands S1 st0 2).events = 1 ∧
    2 = 0 + 1 + (2 - 1) ∧
    (ProcessCommands S1 st0 2).state.parserGet = 2 ∧
    (ProcessCommands S1 st0 2).state.sharedGet = 2 :=
  claim_C1 S1 st0 2 2 rfl rfl (by decide) (by decide) (by decide) rfl

/-- C2 counterexample: three sequentially committed valid commands, all
returning no-error, with a per-call limit of 2 (the construction the tests
use): a single `ProcessCommands` call invokes the backend only twice, not
three times, and the get offset written back stops after the second
command. -/
theorem claim_C2_counterexample :
    isChain S1 0 [2, 1, 1] 4 = true ∧
    (∀ r ∈ chainResults S1 0 [2, 1, 1], r = ParseError.noError) ∧
    countDispatches (ProcessCommands S1 st0 4).events = 2 ∧
    ¬ countDispatches (ProcessCommands S1 st0 4).events = 3 ∧
    ¬ (ProcessCommands S1 st0 4).state.sharedGet = 4 := by decide

/-- C2 (amended): for every sequence of N sequentially committed valid
commands all returning no-error, with N at most the processor's per-call
command limit, a single `ProcessCommands` call invokes the backend exactly
N times in commit order, and the get offset written back equals the word
offset immediately after the last command. -/
theorem claim_C2 (S : Session) (st : State) (put : Nat) (sizes : List Nat)
    (hE : st.errorStatus = false) (hmc : S.makeCurrentOk = true)
    (hput : put < S.entryCount)
    (hch : isChain S st.parserGet sizes put = true)
    (hfuel : sizes.length ≤ S.commandsPerUpdate)
    (hok : ∀ r ∈ chainResults S st.parserGet sizes, r = .noError) :
    (ProcessCommands S st put).events =
      Event.makeCurrent :: Event.readPut put ::
        (chainDispatches S st.parserGet sizes ++ [Event.setGetOffset put]) ∧
    countDispatches (ProcessCommands S st put).events = sizes.length ∧
    (ProcessCommands S st put).state.sharedGet = put := by
  have hnf : ∀ r ∈ chainResults S st.parserGet sizes, classify r ≠ .fatal := by
    intro r hr
    rw [hok r hr]
    simp [classify]
  have hcall := ProcessCommands_chain_all S st put sizes hE hmc hput hch hfuel hnf
  refine ⟨?_, ?_, ?_⟩
  · rw [hcall]
    rw [chainEvents_all_ok S sizes st.parserGet st.parseError hok]
  · rw [hcall]
    show (dispatchesOf _).length = sizes.length
    rw [dispatchesOf_call_events, dispatchesOf_chainEvents]
    simp [dispatchesOf, chainDispatches_length, isDispatch]
  · rw [hcall]

/-- C2 witness: the `ProcessesTwoCommands` scenario, two commands within the
per-call limit. -/
theorem claim_C2_witness :
    (ProcessCommands S1 st0 3).events =
      Event.makeCurrent :: Event.readPut 3 ::
        (chainDispatches S1 0 [2, 1] ++ [Event.setGetOffset 3]) ∧
    countDispatches (ProcessCommands S1 st0 3).events = 2 ∧
    (ProcessCommands S1 st0 3).state.sharedGet = 3 :=
  claim_C2 S1 st0 3 [2, 1] rfl rfl (by decide) (by decide) (by decide) (by decide)

/-- C3: first part — if the k-th committed command's backend invocation
returns a fatal code after a fatal-free prefix of k-1 commands, the pass
dispatches exactly those k commands and nothing after the k-th, latches the
fatal code, raises the error status flag, and writes back the get offset
reached through command k.  Second part — for every session whose error
status flag is already set, `ProcessCommands` is a no-op: it produces no
event at all (in particular it does not read the put offset), dispatches
nothing and leaves the state untouched. -/
theorem claim_C3 :
    (∀ (S : Session) (st : State) (put : Nat) (pre : List Nat) (s : Nat)
        (post : List Nat),
      st.errorStatus = false → S.makeCurrentOk = true → put < S.entryCount →
      isChain S st.parserGet (pre ++ s :: post) put = true →
      pre.length < S.commandsPerUpdate →
      (∀ r ∈ chainResults S st.parserGet pre, classify r ≠ .fatal) →
      classify (S.api (S.buffer (endOffset st.parserGet pre)).command (s - 1)
        (endOffset st.parserGet pre)) = .fatal →
      countDispatches (ProcessCommands S st put).events = pre.length + 1 ∧
      (ProcessCommands S st put).state.parseError =
        S.api (S.buffer (endOffset st.parserGet pre)).command (s - 1)
          (endOffset st.parserGet pre) ∧
      (ProcessCommands S st put).state.errorStatus = true ∧
      (ProcessCommands S st put).state.sharedGet =
        endOffset st.parserGet pre + s ∧
      Event.raiseErrorStatus ∈ (ProcessCommands S st put).events ∧
      Event.setGetOffset (endOffset st.parserGet pre + s) ∈
        (ProcessCommands S st put).events) ∧
    (∀ (S : Session) (st : State) (put : Nat),
      st.errorStatus = true →
      (ProcessCommands S st put).events = [] ∧
      (ProcessCommands S st put).state = st) := by
  constructor
  · intro S st put pre s post hE hmc hput hch hfuel hnf hfat
    have hcall := ProcessCommands_chain_fatal S st put pre s post hE hmc hput
      hch hfuel hnf hfat
    refine ⟨?_, ?_, ?_, ?_, ?_, ?_⟩
    · rw [hcall]
      show (dispatchesOf _).length = pre.length + 1
      rw [dispatchesOf_call_events, dispatchesOf_chainEvents]
      have htail : dispatchesOf
          [Event.dispatch (S.buffer (endOffset st.parserGet pre)).command (s - 1)
             (endOffset st.parserGet pre),
           Event.setParseError (S.api (S.buffer (endOffset st.parserGet pre)).command
             (s - 1) (endOffset st.parserGet pre)),
           Event.raiseErrorStatus,
           Event.setGetOffset (endOffset st.parserGet pre + s)] =
          [Event.dispatch (S.buffer (endOffset st.parserGet pre)).command (s - 1)
             (endOffset st.parserGet pre)] := rfl
      rw [htail]
      simp [chainDispatches_length]
    · rw [hcall]
    · rw [hcall]
    · rw [hcall]
    · rw [hcall]
      simp
    · rw [hcall]
      simp
  · intro S st put hE
    rw [ProcessCommands_noop S st put hE]
    exact ⟨rfl, rfl⟩

/-- C3 witness: the `UnrecoverableParseErrorsRaiseTheErrorStatus` scenario
(fatal on the first of two commands) and the
`ProcessCommandsDoesNothingAfterUnrecoverableError` scenario. -/
theorem claim_C3_witness :
    (countDispatches (ProcessCommands S3 st0 2).events = 0 + 1 ∧
     (ProcessCommands S3 st0 2).state.parseError =
       S3.api (S3.buffer (endOffset 0 [])).command (1 - 1) (endOffset 0 []) ∧
     (ProcessCommands S3 st0 2).state.errorStatus = true ∧
     (ProcessCommands S3 st0 2).state.sharedGet = endOffset 0 [] + 1 ∧
     Event.raiseErrorStatus ∈ (ProcessCommands S3 st0 2).events ∧
     Event.setGetOffset (endOffset 0 [] + 1) ∈ (ProcessCommands S3 st0 2).events) ∧
    ((ProcessCommands S3 { st0 with errorStatus := true } 2).events = [] ∧
     (ProcessCommands S3 { st0 with errorStatus := true } 2).state =
       { st0 with errorStatus := true }) :=
  ⟨claim_C3.1 S3 st0 2 [] 1 [1] rfl rfl (by decide) (by decide) (by decide)
     (by decide) (by decide),
   claim_C3.2 S3 { st0 with errorStatus := true } 2 rfl⟩

/-- C4: if a command's backend invocation returns a recoverable code,
dispatch continues through all N committed commands, the latched parse
error ends as the first non-success code seen in the pass — later successes
neither clear nor overwrite it — the fatal flag stays unset, and get still
advances past all N commands. -/
theorem claim_C4 (S : Session) (st : State) (put : Nat) (sizes : List Nat)
    (hE : st.errorStatus = false) (hmc : S.makeCurrentOk = true)
    (hpe : st.parseError = .noError)
    (hput : put < S.entryCount)
    (hch : isChain S st.parserGet sizes put = true)
    (hfuel : sizes.length ≤ S.commandsPerUpdate)
    (hnf : ∀ r ∈ chainResults S st.parserGet sizes, classify r ≠ .fatal) :
    countDispatches (ProcessCommands S st put).events = sizes.length ∧
    (ProcessCommands S st put).state.parseError =
      firstError (chainResults S st.parserGet sizes) ∧
    (ProcessCommands S st put).state.errorStatus = false ∧
    (ProcessCommands S st put).state.sharedGet = put := by
  have hcall := ProcessCommands_chain_all S st put sizes hE hmc hput hch hfuel hnf
  refine ⟨?_, ?_, ?_, ?_⟩
  · rw [hcall]
    show (dispatchesOf _).length = sizes.length
    rw [dispatchesOf_call_events, dispatchesOf_chainEvents]
    simp [dispatchesOf, chainDispatches_length, isDispatch]
  · rw [hcall]
    show latchFold st.parseError (chainResults S st.parserGet sizes) = _
    rw [hpe]
    exact latchFold_firstError (chainResults S st.parserGet sizes) hnf
  · rw [hcall]
    exact hE
  · rw [hcall]

/-- C4 witness: the recoverable-then-success scenario of the tests, where
the latch keeps `kParseUnknownCommand` after the second, successful
command. -/
theorem claim_C4_witness :
    countDispatches (ProcessCommands S2 st0 2).events = 2 ∧
    (ProcessCommands S2 st0 2).state.parseError =
      firstError (chainResults S2 0 [1, 1]) ∧
    (ProcessCommands S2 st0 2).state.errorStatus = false ∧
    (ProcessCommands S2 st0 2).state.sharedGet = 2 :=
  claim_C4 S2 st0 2 [1, 1] rfl rfl rfl (by decide) (by decide) (by decide)
    (by decide)

/-- C5: when committed commands remain unconsumed at the end of a
`ProcessCommands` call (here: because more commands are visible than the
per-call limit), the call writes back the get offset it has validated and
posts a continuation task instead of blocking; the rescheduled follow-up
call processes exactly the remaining commands.  No command already consumed
is dispatched a second time and the two dispatch traces concatenate to the
full committed sequence in commit order. -/
theorem claim_C5 (S : Session) (st : State) (put : Nat) (sizes : List Nat)
    (hE : st.errorStatus = false) (hmc : S.makeCurrentOk = true)
    (hput : put < S.entryCount)
    (hch : isChain S st.parserGet sizes put = true)
    (hok : ∀ r ∈ chainResults S st.parserGet sizes, r = .noError)
    (hmore : S.commandsPerUpdate < sizes.length)
    (hfit : sizes.length ≤ 2 * S.commandsPerUpdate) :
    Event.postTask ∈ (ProcessCommands S st put).events ∧
    (ProcessCommands S st put).state.sharedGet =
      endOffset st.parserGet (sizes.take S.commandsPerUpdate) ∧
    dispatchesOf (ProcessCommands S st put).events =
      chainDispatches S st.parserGet (sizes.take S.commandsPerUpdate) ∧
    dispatchesOf (ProcessCommands S (ProcessCommands S st put).state put).events =
      chainDispatches S (endOffset st.parserGet (sizes.take S.commandsPerUpdate))
        (sizes.drop S.commandsPerUpdate) ∧
    dispatchesOf (ProcessCommands S st put).events ++
        dispatchesOf (ProcessCommands S (ProcessCommands S st put).state put).events =
      chainDispatches S st.parserGet sizes ∧
    (ProcessCommands S (ProcessCommands S st put).state put).state.sharedGet =
      put := by
  have hsplitR := chainResults_append S (sizes.take S.commandsPerUpdate)
    (sizes.drop S.commandsPerUpdate) st.parserGet
  rw [List.take_append_drop] at hsplitR
  have hok_take : ∀ r ∈ chainResults S st.parserGet
      (sizes.take S.commandsPerUpdate), r = ParseError.noError := by
    intro r hr
    exact hok r (by rw [hsplitR]; exact List.mem_append_left _ hr)
  have hok_drop : ∀ r ∈ chainResults S
      (endOffset st.parserGet (sizes.take S.commandsPerUpdate))
      (sizes.drop S.commandsPerUpdate), r = ParseError.noError := by
    intro r hr
    exact hok r (by rw [hsplitR]; exact List.mem_append_right _ hr)
  have hnf_take : ∀ r ∈ chainResults S st.parserGet
      (sizes.take S.commandsPerUpdate), classify r ≠ .fatal := by
    intro r hr
    rw [hok_take r hr]
    simp [classify]
  have hnf_drop : ∀ r ∈ chainResults S
      (endOffset st.parserGet (sizes.take S.commandsPerUpdate))
      (sizes.drop S.commandsPerUpdate), classify r ≠ .fatal := by
    intro r hr
    rw [hok_drop r hr]
    simp [classify]
  have hcall1 := ProcessCommands_chain_fuel S st put sizes hE hmc hput hch
    hmore hnf_take
  have hch2 := isChain_append S (sizes.take S.commandsPerUpdate)
    (sizes.drop S.commandsPerUpdate) st.parserGet put
    (by rw [List.take_append_drop]; exact hch)
  have hlen2 : (sizes.drop S.commandsPerUpdate).length ≤ S.commandsPerUpdate := by
    simp only [List.length_drop]
    omega
  have hcall2 := ProcessCommands_chain_all S
    { st with
      parserGet := endOffset st.parserGet (sizes.take S.commandsPerUpdate),
      sharedGet := endOffset st.parserGet (sizes.take S.commandsPerUpdate),
      parseError := latchFold st.parseError
        (chainResults S st.parserGet (sizes.take S.commandsPerUpdate)) }
    put (sizes.drop S.commandsPerUpdate) hE hmc hput hch2 hlen2 hnf_drop
  have hd1 : dispatchesOf (Event.makeCurrent :: Event.readPut put ::
      (chainEvents S st.parserGet (sizes.take S.commandsPerUpdate) st.parseError ++
        [Event.setGetOffset (endOffset st.parserGet (sizes.take S.commandsPerUpdate)),
         Event.postTask])) =
      chainDispatches S st.parserGet (sizes.take S.commandsPerUpdate) := by
    rw [dispatchesOf_call_events, dispatchesOf_chainEvents]
    simp [dispatchesOf, isDispatch]
  have hd2 : dispatchesOf (Event.makeCurrent :: Event.readPut put ::
      (chainEvents S (endOffset st.parserGet (sizes.take S.commandsPerUpdate))
          (sizes.drop S.commandsPerUpdate)
          (latchFold st.parseError
            (chainResults S st.parserGet (sizes.take S.commandsPerUpdate))) ++
        [Event.setGetOffset put])) =
      chainDispatches S (endOffset st.parserGet (sizes.take S.commandsPerUpdate))
        (sizes.drop S.commandsPerUpdate) := by
    rw [dispatchesOf_call_events, dispatchesOf_chainEvents]
    simp [dispatchesOf, isDispatch]
  have hsplitD := chainDispatches_append S (sizes.take S.commandsPerUpdate)
    (sizes.drop S.commandsPerUpdate) st.parserGet
  rw [List.take_append_drop] at hsplitD
  simp only [hcall1, hcall2]
  refine ⟨?_, trivial, hd1, hd2, ?_, trivial⟩
  · simp
  · rw [hd1, hd2]
    exact hsplitD.symm

/-- C5 witness: the `PostsTaskToFinishRemainingCommands` scenario — three
commands visible, limit 2: the first call consumes two and posts a task,
the follow-up call consumes exactly the third. -/
theorem claim_C5_witness :
    Event.postTask ∈ (ProcessCommands S1 st0 4).events ∧
    (ProcessCommands S1 st0 4).state.sharedGet = endOffset 0 ([2, 1, 1].take 2) ∧
    dispatchesOf (ProcessCommands S1 st0 4).events =
      chainDispatches S1 0 ([2, 1, 1].take 2) ∧
    dispatchesOf (ProcessCommands S1 (ProcessCommands S1 st0 4).state 4).events =
      chainDispatches S1 (endOffset 0 ([2, 1, 1].take 2)) ([2, 1, 1].drop 2) ∧
    dispatchesOf (ProcessCommands S1 st0 4).events ++
        dispatchesOf (ProcessCommands S1 (ProcessCommands S1 st0 4).state 4).events =
      chainDispatches S1 0 [2, 1, 1] ∧
    (ProcessCommands S1 (ProcessCommands S1 st0 4).state 4).state.sharedGet = 4 :=
  claim_C5 S1 st0 4 [2, 1, 1] rfl rfl (by decide) (by decide) (by decide)
    (by decide) (by decide)

/-- C9: the processor is constructed with a per-invocation command limit and
honors it.  First part: every `ProcessCommands` call, on every session and
state, dispatches at most `commandsPerUpdate` commands.  Second part: when
more committed commands are visible before `put` than the limit allows —
none of which would overrun `put` — the call stops after exactly the limit,
writes back the get offset reached, and posts a continuation task. -/
theorem claim_C9 :
    (∀ (S : Session) (st : State) (put : Nat),
      countDispatches (ProcessCommands S st put).events ≤ S.commandsPerUpdate) ∧
    (∀ (S : Session) (st : State) (put : Nat) (sizes : List Nat),
      st.errorStatus = false → S.makeCurrentOk = true → put < S.entryCount →
      isChain S st.parserGet sizes put = true →
      (∀ r ∈ chainResults S st.parserGet sizes, r = ParseError.noError) →
      S.commandsPerUpdate < sizes.length →
      countDispatches (ProcessCommands S st put).events = S.commandsPerUpdate ∧
      (ProcessCommands S st put).state.sharedGet =
        endOffset st.parserGet (sizes.take S.commandsPerUpdate) ∧
      Event.postTask ∈ (ProcessCommands S st put).events) := by
  constructor
  · exact countDispatches_ProcessCommands
  · intro S st put sizes hE hmc hput hch hok hmore
    have hsplitR := chainResults_append S (sizes.take S.commandsPerUpdate)
      (sizes.drop S.commandsPerUpdate) st.parserGet
    rw [List.take_append_drop] at hsplitR
    have hnf_take : ∀ r ∈ chainResults S st.parserGet
        (sizes.take S.commandsPerUpdate), classify r ≠ .fatal := by
      intro r hr
      rw [hok r (by rw [hsplitR]; exact List.mem_append_left _ hr)]
      simp [classify]
    have hcall := ProcessCommands_chain_fuel S st put sizes hE hmc hput hch
      hmore hnf_take
    simp only [hcall]
    refine ⟨?_, trivial, ?_⟩
    · show (dispatchesOf _).length = S.commandsPerUpdate
      rw [dispatchesOf_call_events, dispatchesOf_chainEvents]
      have hlen : (sizes.take S.commandsPerUpdate).length = S.commandsPerUpdate := by
        simp only [List.length_take]
        omega
      simp [dispatchesOf, isDispatch, chainDispatches_length, hlen]
    · simp

/-- C9 witness: the `PostsTaskToFinishRemainingCommands` scenario — three
commands visible with limit 2, none overrunning put = 4. -/
theorem claim_C9_witness :
    countDispatches (ProcessCommands S1 st0 4).events ≤ S1.commandsPerUpdate ∧
    (countDispatches (ProcessCommands S1 st0 4).events = S1.commandsPerUpdate ∧
     (ProcessCommands S1 st0 4).state.sharedGet = endOffset 0 ([2, 1, 1].take 2) ∧
     Event.postTask ∈ (ProcessCommands S1 st0 4).events) :=
  ⟨claim_C9.1 S1 st0 4,
   claim_C9.2 S1 st0 4 [2, 1, 1] rfl rfl (by decide) (by decide) (by decide)
     (by decide)⟩

end Gpu
